/-
Verification of the replicated-auction system: a per-replica auction state
machine (`main.go`) and a coordinator that broadcasts bids and queries
replicas in order (`coordinator.go`).

The replica state (`Auction`) and its operations are shallow embeddings of
the Go code: the locked body of `handleBid` becomes `placeBid`, the locked
body of `endAuction` becomes `closeIfExpired`, the HTTP adapters become
`handleBid` / `handleQuery`, and the coordinator loops become
`coordinatorBid` / `coordinatorQuery`.  Go's `map[string]int` is embedded
as an association list with update-or-append insertion (`mapInsert`) and
first-match lookup (`mapLookup`).  The wire `amount` arrives as a JSON
number (Go `float64`, embedded as `Rat`) and is truncated toward zero by
`int(amount)`, embedded as `truncToInt`.
-/
import Mathlib

/-- Association-list lookup, embedding Go's `m[k]` read on `map[string]int`. -/
def mapLookup : List (String × Int) → String → Option Int
  | [], _ => none
  | (k, v) :: rest, key => if k = key then some v else mapLookup rest key

/-- Association-list insertion, embedding Go's `m[k] = v` on `map[string]int`:
replace the value in place when the key is present, append otherwise. -/
def mapInsert : List (String × Int) → String → Int → List (String × Int)
  | [], k, v => [(k, v)]
  | (k', v') :: rest, k, v =>
      if k' = k then (k, v) :: rest else (k', v') :: mapInsert rest k v

/-- Replica auction state: the mutable fields of the Go `Auction` struct
(`highestBid`, `highestBidder`, `bidders`, `status`).  The mutex, start time
and duration are concurrency/clock machinery outside the state machine. -/
structure Auction where
  highestBid : Int
  highestBidder : String
  bidders : List (String × Int)
  status : String
deriving DecidableEq

/-- Initial auction state, from the package-level `auction` literal in
`main.go`: highest bid 0, no bidder, empty map, status "ongoing". -/
def initialAuction : Auction :=
  { highestBid := 0, highestBidder := "", bidders := [], status := "ongoing" }

/-- Application-level result of a bid, mirroring the three response bodies
`handleBid` can encode with HTTP 200. -/
inductive Outcome where
  | success
  | fail (reason : String)
  | auctionEnded
deriving DecidableEq

/-- Rejection reason string from `handleBid`. -/
def rejectReason : String := "bid must be higher than current highest bid"

/-- Embedding of `main.go` lines 77-80: register the bidder with amount 0
when the name is not yet a key of the bidders map. -/
def registerBidder (a : Auction) (name : String) : Auction :=
  if (mapLookup a.bidders name).isSome then a
  else { a with bidders := mapInsert a.bidders name 0 }

/-- Locked body of `handleBid` (`main.go` lines 65-101), after wire decoding
and truncation: check for an ended auction, register an unknown bidder with
amount 0, reject a bid not strictly above the current highest, otherwise
record the new highest bid and bidder. -/
def placeBid (a : Auction) (name : String) (amount : Int) : Outcome × Auction :=
  if a.status = "ended" then
    (Outcome.auctionEnded, a)
  else if amount ≤ (registerBidder a name).highestBid then
    (Outcome.fail rejectReason, registerBidder a name)
  else
    (Outcome.success,
      { registerBidder a name with
          highestBid := amount
          highestBidder := name
          bidders := mapInsert (registerBidder a name).bidders name amount })

/-- Locked body of `endAuction` (`main.go` lines 132-135): set the status to
"ended" unconditionally. -/
def closeIfExpired (a : Auction) : Auction :=
  { a with status := "ended" }

/-- The operations that touch the auction state under the exclusive lock. -/
inductive Op where
  | bid (name : String) (amount : Int)
  | close
deriving DecidableEq

/-- State transition of a single locked operation. -/
def applyOp (op : Op) (a : Auction) : Auction :=
  match op with
  | Op.bid n amt => (placeBid a n amt).2
  | Op.close => closeIfExpired a

/-- Run a sequence of operations, also collecting the (name, amount) pairs of
the bids that returned `Outcome.success`, in order. -/
def runOps (a : Auction) : List Op → Auction × List (String × Int)
  | [] => (a, [])
  | Op.bid n amt :: rest =>
      let r := placeBid a n amt
      let p := runOps r.2 rest
      (p.1, (if r.1 = Outcome.success then [(n, amt)] else []) ++ p.2)
  | Op.close :: rest => runOps (closeIfExpired a) rest

/-- Last amount of a successful bid by `id` in a collected success trace,
`none` when `id` never succeeded. -/
def lastSuccess (succs : List (String × Int)) (id : String) : Option Int :=
  succs.foldl (fun acc p => if p.1 = id then some p.2 else acc) none

/-- Relation between a replica state and the trace of successful bids that
produced it: every registered bidder maps to the amount of their most recent
successful bid, or to the placeholder 0 when they never succeeded; a bidder
with a successful bid is always registered. -/
def BiddersInv (a : Auction) (succs : List (String × Int)) : Prop :=
  ∀ id : String,
    (∀ w : Int, lastSuccess succs id = some w → mapLookup a.bidders id = some w) ∧
    (lastSuccess succs id = none →
      mapLookup a.bidders id = none ∨ mapLookup a.bidders id = some 0)

/-- Spec-side characterization (spec §8) of the accepted bids of a sequence:
those whose amount is strictly greater than the highest bid visible at their
own arrival, scanned left to right from highest bid `h`. -/
def specAcceptedBids (h : Int) : List (String × Int) → List (String × Int)
  | [] => []
  | (n, amt) :: rest =>
      if h < amt then (n, amt) :: specAcceptedBids amt rest
      else specAcceptedBids h rest

/-- Lift a list of (name, amount) bids to a list of operations. -/
def bidsOf (bids : List (String × Int)) : List Op :=
  bids.map (fun p => Op.bid p.1 p.2)

/-- JSON values as seen after Go's decode into `map[string]interface{}`: a
string, a number (Go `float64`, embedded as an exact rational), or any other
shape (`bool`, `null`, array, nested object), which fails both of the type
assertions `.(string)` and `.(float64)` in `handleBid`. -/
inductive JsonValue where
  | str (s : String)
  | num (q : Rat)
  | other
deriving DecidableEq

/-- Field lookup in a decoded JSON object, embedding `body["name"]` etc. -/
def jsonLookup : List (String × JsonValue) → String → Option JsonValue
  | [], _ => none
  | (k, v) :: rest, key => if k = key then some v else jsonLookup rest key

/-- Go type assertion `.(string)` on a decoded JSON field. -/
def asString : Option JsonValue → Option String
  | some (JsonValue.str s) => some s
  | _ => none

/-- Go type assertion `.(float64)` on a decoded JSON field. -/
def asNumber : Option JsonValue → Option Rat
  | some (JsonValue.num q) => some q
  | _ => none

/-- Go's `int(amount)` conversion: truncation toward zero, which on an exact
rational is T-division of the numerator by the denominator. -/
def truncToInt (q : Rat) : Int :=
  Int.tdiv q.num q.den

/-- HTTP-level result of a handler: 405 (wrong method), 400 (malformed
payload), or 200 with an encoded body. -/
inductive HttpOutcome (α : Type) where
  | methodNotAllowed
  | badRequest
  | ok (body : α)
deriving DecidableEq

/-- HTTP status code written for each handler result. -/
def httpStatusCode {α : Type} : HttpOutcome α → Nat
  | HttpOutcome.methodNotAllowed => 405
  | HttpOutcome.badRequest => 400
  | HttpOutcome.ok _ => 200

/-- Wire body of a bid response: the `outcome` field plus the optional
`reason` field, as encoded by `handleBid`. -/
structure BidWireResponse where
  outcome : String
  reason : Option String
deriving DecidableEq

/-- Encoding of a bid outcome into the wire response (`main.go` lines 70, 84
and 98): only the rejection branch carries a `reason` field. -/
def bidResponseOf : Outcome → BidWireResponse
  | Outcome.success => { outcome := "success", reason := none }
  | Outcome.fail r => { outcome := "fail", reason := some r }
  | Outcome.auctionEnded => { outcome := "auction ended", reason := none }

/-- Validation step of `handleBid` (`main.go` lines 56-63) followed by the
locked bid: when both type assertions succeed, truncate the amount and run
`placeBid`, answering 200 with the encoded outcome; otherwise answer 400
without touching the state. -/
def handleBidFields (a : Auction) :
    Option String → Option Rat → HttpOutcome BidWireResponse × Auction
  | some name, some q =>
      ((HttpOutcome.ok (bidResponseOf (placeBid a name (truncToInt q)).1)),
        (placeBid a name (truncToInt q)).2)
  | _, _ => (HttpOutcome.badRequest, a)

/-- Wire adapter of `handleBid` (`main.go` lines 41-102): reject a non-POST
method with 405; reject an undecodable body (`none`) with 400; otherwise run
the field validation and the locked bid of `handleBidFields`.  The updated
auction state is returned alongside the response. -/
def handleBid (method : String) (body : Option (List (String × JsonValue)))
    (a : Auction) : HttpOutcome BidWireResponse × Auction :=
  if method ≠ "POST" then (HttpOutcome.methodNotAllowed, a)
  else
    match body with
    | none => (HttpOutcome.badRequest, a)
    | some fields =>
        handleBidFields a (asString (jsonLookup fields "name"))
          (asNumber (jsonLookup fields "amount"))

/-- Wire body of a query response: `status`, `highest_bid`, `highest_bidder`,
`time_remaining`, and the `winner` field present exactly when ended. -/
structure QuerySnapshot where
  qstatus : String
  highest_bid : Int
  highest_bidder : String
  time_remaining : Int
  winner : Option String
deriving DecidableEq

/-- Wire adapter of `handleQuery` (`main.go` lines 104-128): reject a non-GET
method with 405, otherwise answer 200 with a read-only snapshot.  The clock
inputs (configured duration and elapsed seconds, both already truncated to
whole seconds as in the Go code) are passed explicitly. -/
def handleQuery (method : String) (a : Auction) (durationSeconds elapsedSeconds : Int) :
    HttpOutcome QuerySnapshot × Auction :=
  if method ≠ "GET" then (HttpOutcome.methodNotAllowed, a)
  else
    (HttpOutcome.ok
      { qstatus := a.status
        highest_bid := a.highestBid
        highest_bidder := a.highestBidder
        time_remaining := durationSeconds - elapsedSeconds
        winner := if a.status = "ended" then some a.highestBidder else none }, a)

/-- Outcome of one replica interaction during a coordinator query: connection
failure, body-read failure, or an HTTP response with a status code and body. -/
inductive ReplicaQueryResult where
  | connectError
  | readError
  | httpResponse (statusCode : Nat) (body : String)
deriving DecidableEq

/-- Embedding of `Coordinator.queryFromReplica` (`coordinator.go`): an error
on connection failure, body-read failure, or a non-200 status; otherwise the
body as read. -/
def queryFromReplica : ReplicaQueryResult → Except String String
  | ReplicaQueryResult.connectError => Except.error "failed to connect to replica"
  | ReplicaQueryResult.readError => Except.error "failed to read response"
  | ReplicaQueryResult.httpResponse st body =>
      if st ≠ 200 then Except.error ("unexpected status code: " ++ toString st)
      else Except.ok body

/-- Boolean view of `queryFromReplica` failing on a replica interaction. -/
def isQueryError (r : ReplicaQueryResult) : Bool :=
  match queryFromReplica r with
  | Except.error _ => true
  | Except.ok _ => false

/-- Per-attempt client timeout, in seconds, configured in
`Coordinator.queryFromReplica` (`Timeout: 2 * time.Second`). -/
def queryClientTimeoutSeconds : Nat := 2

/-- Embedding of `Coordinator.query`: walk the replica interactions in
configured order and return the first successfully read body; `none` when
every replica fails ("Failed to query all replicas"). -/
def coordinatorQuery : List ReplicaQueryResult → Option String
  | [] => none
  | r :: rest =>
      match queryFromReplica r with
      | Except.ok data => some data
      | Except.error _ => coordinatorQuery rest

/-- Outcome of one replica interaction during a coordinator bid broadcast:
POST transport failure, response-decode failure, or a decoded response. -/
inductive ReplicaBidResult where
  | sendError
  | decodeError
  | response (resp : BidWireResponse)
deriving DecidableEq

/-- Log events the coordinator's `bid` can emit. -/
inductive CoordinatorLogEntry where
  | sendErrorLogged
  | decodeErrorLogged
  | replicaFailureLogged
  | bidCompleted
deriving DecidableEq

/-- One iteration of the broadcast loop in `Coordinator.bid`: a transport or
decode failure is logged and the replica skipped; a decoded response is
logged as a failure only when its `reason` field is the string "fail". -/
def bidReplicaStep : ReplicaBidResult → List CoordinatorLogEntry
  | ReplicaBidResult.sendError => [CoordinatorLogEntry.sendErrorLogged]
  | ReplicaBidResult.decodeError => [CoordinatorLogEntry.decodeErrorLogged]
  | ReplicaBidResult.response resp =>
      if resp.reason = some "fail" then [CoordinatorLogEntry.replicaFailureLogged] else []

/-- The broadcast loop of `Coordinator.bid` over the whole replica list. -/
def coordinatorBidLoop : List ReplicaBidResult → List CoordinatorLogEntry
  | [] => []
  | r :: rest => bidReplicaStep r ++ coordinatorBidLoop rest

/-- Embedding of `Coordinator.bid`: run the broadcast loop over every replica
and log the unconditional completion message.  The function returns only its
log — the Go method has no return value and computes no aggregate. -/
def coordinatorBid (rs : List ReplicaBidResult) : List CoordinatorLogEntry :=
  coordinatorBidLoop rs ++ [CoordinatorLogEntry.bidCompleted]

theorem registerBidder_highestBid (a : Auction) (name : String) :
    (registerBidder a name).highestBid = a.highestBid := by
  unfold registerBidder; split <;> rfl

theorem registerBidder_highestBidder (a : Auction) (name : String) :
    (registerBidder a name).highestBidder = a.highestBidder := by
  unfold registerBidder; split <;> rfl

theorem registerBidder_status (a : Auction) (name : String) :
    (registerBidder a name).status = a.status := by
  unfold registerBidder; split <;> rfl

theorem mapInsert_mapInsert (m : List (String × Int)) (k : String) (v w : Int) :
    mapInsert (mapInsert m k v) k w = mapInsert m k w := by
  induction m with
  | nil => simp [mapInsert]
  | cons p rest ih =>
      by_cases h : p.1 = k
      · simp [mapInsert, h]
      · simp [mapInsert, h, ih]

theorem mapLookup_mapInsert_self (m : List (String × Int)) (k : String) (v : Int) :
    mapLookup (mapInsert m k v) k = some v := by
  induction m with
  | nil => simp [mapInsert, mapLookup]
  | cons p rest ih =>
      by_cases h : p.1 = k
      · simp [mapInsert, h, mapLookup]
      · simp [mapInsert, h, mapLookup, ih]

theorem mapLookup_mapInsert_ne (m : List (String × Int)) (k k' : String) (v : Int)
    (h : k ≠ k') : mapLookup (mapInsert m k v) k' = mapLookup m k' := by
  induction m with
  | nil => simp [mapInsert, mapLookup, h]
  | cons p rest ih =>
      by_cases hp : p.1 = k
      · simp [mapInsert, hp, mapLookup, h]
      · by_cases hp' : p.1 = k'
        · simp [mapInsert, hp, mapLookup, hp', Ne.symm h]
        · simp [mapInsert, hp, mapLookup, hp', ih]

theorem registerBidder_bidders_insert (a : Auction) (name : String) (amt : Int) :
    mapInsert (registerBidder a name).bidders name amt = mapInsert a.bidders name amt := by
  unfold registerBidder
  split
  · rfl
  · simp [mapInsert_mapInsert]

theorem placeBid_ended (a : Auction) (n : String) (amt : Int) (h : a.status = "ended") :
    placeBid a n amt = (Outcome.auctionEnded, a) := by
  simp [placeBid, h]

theorem placeBid_reject (a : Auction) (n : String) (amt : Int)
    (h1 : a.status ≠ "ended") (h2 : amt ≤ a.highestBid) :
    placeBid a n amt = (Outcome.fail rejectReason, registerBidder a n) := by
  simp [placeBid, h1, registerBidder_highestBid, h2]

theorem placeBid_accept (a : Auction) (n : String) (amt : Int)
    (h1 : a.status ≠ "ended") (h2 : a.highestBid < amt) :
    placeBid a n amt =
      (Outcome.success,
        { highestBid := amt, highestBidder := n,
          bidders := mapInsert a.bidders n amt, status := a.status }) := by
  simp [placeBid, h1, registerBidder_highestBid, not_le.mpr h2,
    registerBidder_bidders_insert, registerBidder_status]

theorem placeBid_status (a : Auction) (n : String) (amt : Int) :
    (placeBid a n amt).2.status = a.status := by
  unfold placeBid
  split
  · rfl
  · split
    · simp [registerBidder_status]
    · simp [registerBidder_status]

theorem placeBid_fail_reason (a : Auction) (n : String) (amt : Int) (r : String)
    (h : (placeBid a n amt).1 = Outcome.fail r) : r = rejectReason := by
  unfold placeBid at h
  split at h
  · simp at h
  · split at h
    · simp at h; exact h.symm
    · simp at h

theorem registerBidder_bidders (a : Auction) (name : String) :
    (registerBidder a name).bidders =
      (if (mapLookup a.bidders name).isSome then a.bidders
       else mapInsert a.bidders name 0) := by
  unfold registerBidder
  split <;> rename_i h <;> simp [h]

theorem handleQuery_state (method : String) (a : Auction) (d e : Int) :
    (handleQuery method a d e).2 = a := by
  unfold handleQuery
  split <;> rfl

/-- C1 counterexample: from the initial state, the bid ("a", 0) is rejected
because 0 is not strictly greater than the current highest bid 0, yet the
state is not byte-for-byte unchanged — the bidders map gains the entry
("a", 0) through the registration step that precedes the comparison. -/
theorem placeBid_reject_mutates :
    (placeBid initialAuction "a" 0).1 = Outcome.fail rejectReason ∧
    (placeBid initialAuction "a" 0).2 ≠ initialAuction ∧
    (placeBid initialAuction "a" 0).2.bidders = [("a", 0)] := by
  decide

/-- C1 (amended): a call returning AuctionEnded leaves the whole state
unchanged; a call returning Rejected leaves highestBid, highestBidder and
status unchanged and leaves the bidders map unchanged except that a
not-yet-registered bidder is added with the placeholder amount 0. -/
theorem placeBid_frame (a : Auction) (name : String) (amount : Int) :
    ((placeBid a name amount).1 = Outcome.auctionEnded → (placeBid a name amount).2 = a) ∧
    (∀ r : String, (placeBid a name amount).1 = Outcome.fail r →
      (placeBid a name amount).2.highestBid = a.highestBid ∧
      (placeBid a name amount).2.highestBidder = a.highestBidder ∧
      (placeBid a name amount).2.status = a.status ∧
      (placeBid a name amount).2.bidders =
        (if (mapLookup a.bidders name).isSome then a.bidders
         else mapInsert a.bidders name 0)) := by
  constructor
  · intro h
    by_cases hs : a.status = "ended"
    · rw [placeBid_ended a name amount hs]
    · by_cases hb : amount ≤ a.highestBid
      · rw [placeBid_reject a name amount hs hb] at h
        simp at h
      · rw [placeBid_accept a name amount hs (not_le.mp hb)] at h
        simp at h
  · intro r h
    by_cases hs : a.status = "ended"
    · rw [placeBid_ended a name amount hs] at h
      simp at h
    · by_cases hb : amount ≤ a.highestBid
      · rw [placeBid_reject a name amount hs hb]
        exact ⟨registerBidder_highestBid a name, registerBidder_highestBidder a name,
          registerBidder_status a name, registerBidder_bidders a name⟩
      · rw [placeBid_accept a name amount hs (not_le.mp hb)] at h
        simp at h

/-- C1 witness: concrete instances of both frame conclusions — a bid against
an ended auction changes nothing, and the rejected bid ("a", 0) from the
initial state only registers "a" with amount 0. -/
theorem placeBid_frame_witness :
    (placeBid (closeIfExpired initialAuction) "a" 5).2 = closeIfExpired initialAuction ∧
    (placeBid initialAuction "a" 0).2.bidders =
      (if (mapLookup initialAuction.bidders "a").isSome then initialAuction.bidders
       else mapInsert initialAuction.bidders "a" 0) := by
  constructor
  · exact (placeBid_frame (closeIfExpired initialAuction) "a" 5).1 (by decide)
  · exact ((placeBid_frame initialAuction "a" 0).2 rejectReason (by decide)).2.2.2

/-- C3: the full contract of PlaceBid (the locked body of handleBid, with
the wire amount already truncated to an integer at the boundary): against an
ended auction it answers AuctionEnded with no mutation regardless of the
amount; an amount at most the current highest bid answers the fixed
rejection reason; a strictly greater amount installs the new highest bid,
highest bidder and bidder-map entry and answers Success; and the other
operations — closing and querying — never mutate the bid fields. -/
theorem placeBid_contract (a : Auction) (name : String) (amount : Int)
    (method : String) (d e : Int) :
    (a.status = "ended" → placeBid a name amount = (Outcome.auctionEnded, a)) ∧
    (a.status ≠ "ended" → amount ≤ a.highestBid →
      (placeBid a name amount).1 = Outcome.fail rejectReason) ∧
    (a.status ≠ "ended" → a.highestBid < amount →
      placeBid a name amount =
        (Outcome.success,
          { highestBid := amount, highestBidder := name,
            bidders := mapInsert a.bidders name amount, status := a.status })) ∧
    (applyOp Op.close a).highestBid = a.highestBid ∧
    (applyOp Op.close a).highestBidder = a.highestBidder ∧
    (applyOp Op.close a).bidders = a.bidders ∧
    (handleQuery method a d e).2 = a := by
  refine ⟨placeBid_ended a name amount, ?_, ?_, rfl, rfl, rfl, handleQuery_state method a d e⟩
  · intro h1 h2
    rw [placeBid_reject a name amount h1 h2]
  · intro h1 h2
    exact placeBid_accept a name amount h1 h2

/-- C3 witness: the three branches of the contract at concrete inputs. -/
theorem placeBid_contract_witness :
    placeBid (closeIfExpired initialAuction) "a" 7 =
      (Outcome.auctionEnded, closeIfExpired initialAuction) ∧
    (placeBid initialAuction "a" 0).1 = Outcome.fail rejectReason ∧
    placeBid initialAuction "a" 5 =
      (Outcome.success,
        { highestBid := 5, highestBidder := "a",
          bidders := mapInsert initialAuction.bidders "a" 5,
          status := initialAuction.status }) := by
  refine ⟨?_, ?_, ?_⟩
  · exact (placeBid_contract (closeIfExpired initialAuction) "a" 7 "GET" 0 0).1 rfl
  · exact (placeBid_contract initialAuction "a" 0 "GET" 0 0).2.1 (by decide) (by decide)
  · exact (placeBid_contract initialAuction "a" 5 "GET" 0 0).2.2.1 (by decide) (by decide)

/-- C5 counterexample: in the ongoing state reached by the successful bid
("a", 10), the further bid ("a", 20) changes highestBid from 10 to 20 while
highestBidder stays "a" — highestBid changes without highestBidder, so the
two do not change only together. -/
theorem highestBid_changes_alone :
    (applyOp (Op.bid "a" 10) initialAuction).status = "ongoing" ∧
    (applyOp (Op.bid "a" 20) (applyOp (Op.bid "a" 10) initialAuction)).highestBid ≠
      (applyOp (Op.bid "a" 10) initialAuction).highestBid ∧
    (applyOp (Op.bid "a" 20) (applyOp (Op.bid "a" 10) initialAuction)).highestBidder =
      (applyOp (Op.bid "a" 10) initialAuction).highestBidder := by
  decide

/-- C5 (amended): across every locked operation highestBid is non-decreasing,
an accepted bid strictly raises it, closing leaves it unchanged, and
highestBidder never changes without highestBid changing; highestBid may
however change while highestBidder is re-assigned the same bidder (a bidder
outbidding themselves). -/
theorem highestBid_monotone (a : Auction) (op : Op) :
    a.highestBid ≤ (applyOp op a).highestBid ∧
    (∀ n amt, op = Op.bid n amt → (placeBid a n amt).1 = Outcome.success →
      a.highestBid < (applyOp op a).highestBid) ∧
    (applyOp Op.close a).highestBid = a.highestBid ∧
    ((applyOp op a).highestBidder ≠ a.highestBidder →
      (applyOp op a).highestBid ≠ a.highestBid) := by
  cases op with
  | close =>
      refine ⟨le_refl _, ?_, rfl, ?_⟩
      · intro n amt h
        simp at h
      · intro h
        exact absurd rfl h
  | bid n amt =>
      by_cases hs : a.status = "ended"
      · have he : applyOp (Op.bid n amt) a = a := by
          simp [applyOp, placeBid_ended a n amt hs]
        refine ⟨le_of_eq (by rw [he]), ?_, rfl, ?_⟩
        · intro n' amt' hop hsucc
          injection hop with hn hamt
          subst hn; subst hamt
          rw [placeBid_ended a n amt hs] at hsucc
          simp at hsucc
        · intro h
          rw [he] at h
          exact absurd rfl h
      · by_cases hb : amt ≤ a.highestBid
        · have hr : applyOp (Op.bid n amt) a = registerBidder a n := by
            simp [applyOp, placeBid_reject a n amt hs hb]
          refine ⟨le_of_eq ?_, ?_, rfl, ?_⟩
          · rw [hr, registerBidder_highestBid]
          · intro n' amt' hop hsucc
            injection hop with hn hamt
            subst hn; subst hamt
            rw [placeBid_reject a n amt hs hb] at hsucc
            simp at hsucc
          · intro h
            rw [hr, registerBidder_highestBidder] at h
            exact absurd rfl h
        · have hlt : a.highestBid < amt := not_le.mp hb
          have ha : applyOp (Op.bid n amt) a =
              { highestBid := amt, highestBidder := n,
                bidders := mapInsert a.bidders n amt, status := a.status } := by
            simp [applyOp, placeBid_accept a n amt hs hlt]
          refine ⟨?_, ?_, rfl, ?_⟩
          · rw [ha]
            exact le_of_lt hlt
          · intro n' amt' hop hsucc
            injection hop with hn hamt
            subst hn; subst hamt
            rw [ha]
            exact hlt
          · intro h
            rw [ha]
            exact ne_of_gt hlt

/-- C5 witness: an accepted bid on the initial state strictly raises the
highest bid. -/
theorem highestBid_monotone_witness :
    initialAuction.highestBid < (applyOp (Op.bid "a" 5) initialAuction).highestBid :=
  (highestBid_monotone initialAuction (Op.bid "a" 5)).2.1 "a" 5 rfl (by decide)

/-- C6: the closing transition sets status to "ended"; invoking it a second
time yields a state identical to invoking it once and, when the status is
already "ended", leaves every field unchanged; and no locked operation ever
moves the status back from "ended". -/
theorem closeIfExpired_one_shot (a : Auction) :
    (closeIfExpired a).status = "ended" ∧
    closeIfExpired (closeIfExpired a) = closeIfExpired a ∧
    (a.status = "ended" → closeIfExpired a = a) ∧
    (∀ op : Op, a.status = "ended" → (applyOp op a).status = "ended") := by
  refine ⟨rfl, rfl, ?_, ?_⟩
  · intro h
    cases a
    simp [closeIfExpired] at *
    exact h.symm
  · intro op h
    cases op with
    | close => rfl
    | bid n amt =>
        show (placeBid a n amt).2.status = "ended"
        rw [placeBid_status]
        exact h

/-- C6 witness: closing twice from the initial state equals closing once, a
second close on an ended state changes nothing, and a bid against an ended
state leaves the status "ended". -/
theorem closeIfExpired_one_shot_witness :
    closeIfExpired (closeIfExpired initialAuction) = closeIfExpired initialAuction ∧
    closeIfExpired (closeIfExpired initialAuction) = closeIfExpired initialAuction ∧
    (applyOp (Op.bid "a" 999) (closeIfExpired initialAuction)).status = "ended" := by
  refine ⟨(closeIfExpired_one_shot initialAuction).2.1, ?_, ?_⟩
  · exact (closeIfExpired_one_shot (closeIfExpired initialAuction)).2.2.1 rfl
  · exact (closeIfExpired_one_shot (closeIfExpired initialAuction)).2.2.2 (Op.bid "a" 999) rfl

theorem lastSuccess_nil (id : String) : lastSuccess [] id = none := rfl

theorem lastSuccess_append_single (s : List (String × Int)) (n id : String) (amt : Int) :
    lastSuccess (s ++ [(n, amt)]) id =
      (if n = id then some amt else lastSuccess s id) := by
  unfold lastSuccess
  rw [List.foldl_append]
  rfl

theorem registerBidder_mapLookup (a : Auction) (n id : String) :
    mapLookup (registerBidder a n).bidders id =
      (if mapLookup a.bidders id = none ∧ id = n then some 0
       else mapLookup a.bidders id) := by
  unfold registerBidder
  by_cases hn : (mapLookup a.bidders n).isSome
  · rw [if_pos hn]
    by_cases hid : id = n
    · subst hid
      rw [if_neg]
      intro hc
      rw [hc.1] at hn
      simp at hn
    · rw [if_neg]
      intro hc
      exact hid hc.2
  · rw [if_neg hn]
    by_cases hid : id = n
    · subst hid
      have hnone : mapLookup a.bidders id = none := by
        cases hl : mapLookup a.bidders id with
        | none => rfl
        | some w => rw [hl] at hn; simp at hn
      simp only [hnone, true_and, if_pos rfl]
      exact mapLookup_mapInsert_self a.bidders id 0
    · rw [if_neg]
      · exact mapLookup_mapInsert_ne a.bidders n id 0 (fun hc => hid hc.symm)
      · intro hc
        exact hid hc.2

theorem biddersInv_register (a : Auction) (s : List (String × Int)) (n : String)
    (h : BiddersInv a s) : BiddersInv (registerBidder a n) s := by
  intro id
  constructor
  · intro w hw
    rw [registerBidder_mapLookup]
    have h1 := (h id).1 w hw
    rw [if_neg]
    · exact h1
    · intro hc
      rw [h1] at hc
      simp at hc
  · intro hnone
    rw [registerBidder_mapLookup]
    by_cases hc : mapLookup a.bidders id = none ∧ id = n
    · rw [if_pos hc]
      right
      rfl
    · rw [if_neg hc]
      exact (h id).2 hnone

theorem biddersInv_accept (a : Auction) (s : List (String × Int)) (n : String) (amt : Int)
    (h : BiddersInv a s) :
    BiddersInv
      { highestBid := amt, highestBidder := n,
        bidders := mapInsert a.bidders n amt, status := a.status }
      (s ++ [(n, amt)]) := by
  intro id
  constructor
  · intro w hw
    rw [lastSuccess_append_single] at hw
    by_cases hid : n = id
    · subst hid
      rw [if_pos rfl] at hw
      show mapLookup (mapInsert a.bidders n amt) n = some w
      rw [mapLookup_mapInsert_self]
      exact hw
    · rw [if_neg hid] at hw
      show mapLookup (mapInsert a.bidders n amt) id = some w
      rw [mapLookup_mapInsert_ne a.bidders n id amt hid]
      exact (h id).1 w hw
  · intro hnone
    rw [lastSuccess_append_single] at hnone
    by_cases hid : n = id
    · rw [if_pos hid] at hnone
      simp at hnone
    · rw [if_neg hid] at hnone
      show mapLookup (mapInsert a.bidders n amt) id = none ∨
        mapLookup (mapInsert a.bidders n amt) id = some 0
      rw [mapLookup_mapInsert_ne a.bidders n id amt hid]
      exact (h id).2 hnone

theorem runOps_biddersInv (ops : List Op) (a : Auction) (s : List (String × Int))
    (h : BiddersInv a s) :
    BiddersInv (runOps a ops).1 (s ++ (runOps a ops).2) := by
  induction ops generalizing a s with
  | nil => simpa [runOps] using h
  | cons op rest ih =>
      cases op with
      | close =>
          have hinv : BiddersInv (closeIfExpired a) s := fun id => h id
          simpa [runOps] using ih (closeIfExpired a) s hinv
      | bid n amt =>
          by_cases hs : a.status = "ended"
          · have hpb := placeBid_ended a n amt hs
            simpa [runOps, hpb] using ih a s h
          · by_cases hb : amt ≤ a.highestBid
            · have hpb := placeBid_reject a n amt hs hb
              have hinv := biddersInv_register a s n h
              simpa [runOps, hpb] using ih (registerBidder a n) s hinv
            · have hpb := placeBid_accept a n amt hs (not_le.mp hb)
              have hinv := biddersInv_accept a s n amt h
              have hrec := ih _ (s ++ [(n, amt)]) hinv
              simpa [runOps, hpb, List.append_assoc] using hrec

theorem biddersInv_initial : BiddersInv initialAuction [] := by
  intro id
  constructor
  · intro w hw
    simp [lastSuccess] at hw
  · intro _
    left
    rfl

/-- C2 counterexample: after the single rejected bid ("a", 0) from the
initial state, the bidders map contains the entry ("a", 0) although "a" has
never placed a successful bid (the success trace is empty). -/
theorem bidders_entry_without_success :
    mapLookup (runOps initialAuction [Op.bid "a" 0]).1.bidders "a" = some 0 ∧
    (runOps initialAuction [Op.bid "a" 0]).2 = [] ∧
    lastSuccess (runOps initialAuction [Op.bid "a" 0]).2 "a" = none := by
  decide

/-- C2 (amended): in every state reachable from the initial auction by a
sequence of locked operations, every entry of the bidders map holds the
amount of that bidder's most recent successful bid, or the placeholder 0
recorded at registration when the bidder has never bid successfully. -/
theorem bidders_last_success (ops : List Op) (id : String) (v : Int)
    (h : mapLookup (runOps initialAuction ops).1.bidders id = some v) :
    lastSuccess (runOps initialAuction ops).2 id = some v ∨
    (lastSuccess (runOps initialAuction ops).2 id = none ∧ v = 0) := by
  have hinv := runOps_biddersInv ops initialAuction [] biddersInv_initial
  cases hls : lastSuccess (runOps initialAuction ops).2 id with
  | some w =>
      left
      have h2 := (hinv id).1 w (by rw [List.nil_append]; exact hls)
      rw [h] at h2
      injection h2 with h3
      rw [h3]
  | none =>
      right
      have h2 := (hinv id).2 (by rw [List.nil_append]; exact hls)
      cases h2 with
      | inl h3 => rw [h] at h3; exact absurd h3 (by simp)
      | inr h3 =>
          rw [h] at h3
          injection h3 with h4
          exact ⟨rfl, h4⟩

/-- C2 witness: after the successful bid ("a", 5) from the initial state,
the map entry of "a" is explained by its last successful bid. -/
theorem bidders_last_success_witness :
    lastSuccess (runOps initialAuction [Op.bid "a" 5]).2 "a" = some 5 ∨
    (lastSuccess (runOps initialAuction [Op.bid "a" 5]).2 "a" = none ∧ (5 : Int) = 0) :=
  bidders_last_success [Op.bid "a" 5] "a" 5 (by decide)

theorem runBids_spec (bids : List (String × Int)) (a : Auction) (hs : a.status ≠ "ended") :
    (runOps a (bidsOf bids)).2 = specAcceptedBids a.highestBid bids ∧
    (runOps a (bidsOf bids)).1.highestBid =
      List.foldl (fun m p => max m p.2) a.highestBid bids := by
  induction bids generalizing a with
  | nil => exact ⟨rfl, rfl⟩
  | cons p rest ih =>
      obtain ⟨n, amt⟩ := p
      have hs2 : (placeBid a n amt).2.status ≠ "ended" := by
        rw [placeBid_status]; exact hs
      obtain ⟨ht, hf⟩ := ih (placeBid a n amt).2 hs2
      by_cases hb : amt ≤ a.highestBid
      · have hpb := placeBid_reject a n amt hs hb
        have h1 : (placeBid a n amt).1 = Outcome.fail rejectReason := by rw [hpb]
        have h2b : (placeBid a n amt).2.highestBid = a.highestBid := by
          rw [hpb]; exact registerBidder_highestBid a n
        constructor
        · show (if (placeBid a n amt).1 = Outcome.success then [(n, amt)] else []) ++
              (runOps (placeBid a n amt).2 (bidsOf rest)).2 =
              specAcceptedBids a.highestBid ((n, amt) :: rest)
          rw [h1, if_neg (by simp), List.nil_append]
          simp only [specAcceptedBids]
          rw [if_neg (not_lt.mpr hb), ht, h2b]
        · show (runOps (placeBid a n amt).2 (bidsOf rest)).1.highestBid =
              List.foldl (fun m p => max m p.2) a.highestBid ((n, amt) :: rest)
          rw [List.foldl_cons]
          show _ = List.foldl (fun m p => max m p.2) (max a.highestBid amt) rest
          rw [max_eq_left hb, hf, h2b]
      · have hlt : a.highestBid < amt := not_le.mp hb
        have hpb := placeBid_accept a n amt hs hlt
        have h1 : (placeBid a n amt).1 = Outcome.success := by rw [hpb]
        have h2b : (placeBid a n amt).2.highestBid = amt := by rw [hpb]
        constructor
        · show (if (placeBid a n amt).1 = Outcome.success then [(n, amt)] else []) ++
              (runOps (placeBid a n amt).2 (bidsOf rest)).2 =
              specAcceptedBids a.highestBid ((n, amt) :: rest)
          rw [h1, if_pos rfl, List.singleton_append]
          simp only [specAcceptedBids]
          rw [if_pos hlt, ht, h2b]
        · show (runOps (placeBid a n amt).2 (bidsOf rest)).1.highestBid =
              List.foldl (fun m p => max m p.2) a.highestBid ((n, amt) :: rest)
          rw [List.foldl_cons]
          show _ = List.foldl (fun m p => max m p.2) (max a.highestBid amt) rest
          rw [max_eq_right (le_of_lt hlt), hf, h2b]

theorem le_foldl_max (bids : List (String × Int)) (h : Int) :
    h ≤ List.foldl (fun m p => max m p.2) h bids := by
  induction bids generalizing h with
  | nil => exact le_refl h
  | cons p rest ih =>
      rw [List.foldl_cons]
      exact le_trans (le_max_left h p.2) (ih (max h p.2))

theorem specAccepted_max (bids : List (String × Int)) (h : Int) :
    (specAcceptedBids h bids = [] →
      List.foldl (fun m p => max m p.2) h bids = h) ∧
    (specAcceptedBids h bids ≠ [] →
      List.foldl (fun m p => max m p.2) h bids ∈ (specAcceptedBids h bids).map Prod.snd ∧
      ∀ x ∈ (specAcceptedBids h bids).map Prod.snd,
        x ≤ List.foldl (fun m p => max m p.2) h bids) := by
  induction bids generalizing h with
  | nil =>
      refine ⟨fun _ => rfl, fun hne => absurd rfl hne⟩
  | cons p rest ih =>
      obtain ⟨n, amt⟩ := p
      by_cases hlt : h < amt
      · have hspec : specAcceptedBids h ((n, amt) :: rest) =
            (n, amt) :: specAcceptedBids amt rest := by
          simp [specAcceptedBids, hlt]
        have hfold : List.foldl (fun m p => max m p.2) h ((n, amt) :: rest) =
            List.foldl (fun m p => max m p.2) amt rest := by
          rw [List.foldl_cons, max_eq_right (le_of_lt hlt)]
        constructor
        · intro hempty
          rw [hspec] at hempty
          simp at hempty
        · intro _
          rw [hspec, hfold]
          by_cases hre : specAcceptedBids amt rest = []
          · rw [hre, (ih amt).1 hre]
            constructor
            · simp
            · intro x hx
              simp at hx
              rw [hx]
          · obtain ⟨hmem, hbound⟩ := (ih amt).2 hre
            constructor
            · rw [List.map_cons]
              exact List.mem_cons_of_mem amt hmem
            · intro x hx
              rw [List.map_cons] at hx
              rcases List.mem_cons.mp hx with hx1 | hx2
              · rw [hx1]
                exact le_foldl_max rest amt
              · exact hbound x hx2
      · have hle : amt ≤ h := not_lt.mp hlt
        have hspec : specAcceptedBids h ((n, amt) :: rest) = specAcceptedBids h rest := by
          simp [specAcceptedBids, hlt]
        have hfold : List.foldl (fun m p => max m p.2) h ((n, amt) :: rest) =
            List.foldl (fun m p => max m p.2) h rest := by
          rw [List.foldl_cons, max_eq_left hle]
        rw [hspec, hfold]
        exact ih h

theorem specAccepted_increasing (bids : List (String × Int)) (h : Int)
    (hc : List.Chain' (· < ·) (h :: bids.map Prod.snd)) :
    specAcceptedBids h bids = bids := by
  induction bids generalizing h with
  | nil => rfl
  | cons p rest ih =>
      obtain ⟨n, amt⟩ := p
      rw [List.map_cons] at hc
      obtain ⟨h1, h2⟩ := List.chain'_cons.mp hc
      simp only [specAcceptedBids, if_pos h1]
      rw [ih amt h2]

theorem specAccepted_none (bids : List (String × Int)) (h : Int)
    (hb : ∀ x ∈ bids.map Prod.snd, x ≤ h) :
    specAcceptedBids h bids = [] := by
  induction bids with
  | nil => rfl
  | cons p rest ih =>
      obtain ⟨n, amt⟩ := p
      have hle : amt ≤ h := hb amt (by simp)
      simp only [specAcceptedBids, if_neg (not_lt.mpr hle)]
      exact ih (fun x hx => hb x (by simp [hx]))

theorem specAccepted_reverse (bids : List (String × Int)) (h : Int)
    (hc : List.Chain' (· < ·) (h :: bids.map Prod.snd)) :
    specAcceptedBids h bids.reverse = bids.reverse.take 1 := by
  have hp : List.Pairwise (· < ·) (h :: bids.map Prod.snd) :=
    List.chain'_iff_pairwise.mp hc
  obtain ⟨hhd, htl⟩ := List.pairwise_cons.mp hp
  cases hrev : bids.reverse with
  | nil => rfl
  | cons p rest =>
      have hpmem : p ∈ bids := by
        have hm : p ∈ bids.reverse := by
          rw [hrev]; exact List.mem_cons_self p rest
        exact List.mem_reverse.mp hm
      have hhp : h < p.2 := hhd p.2 (List.mem_map_of_mem Prod.snd hpmem)
      have hpw : List.Pairwise (fun x y => y < x) (bids.map Prod.snd).reverse :=
        List.pairwise_reverse.mpr htl
      have hrevmap : (bids.map Prod.snd).reverse = p.2 :: rest.map Prod.snd := by
        rw [← List.map_reverse, hrev, List.map_cons]
      rw [hrevmap] at hpw
      obtain ⟨hgt, _⟩ := List.pairwise_cons.mp hpw
      obtain ⟨pn, pa⟩ := p
      simp only [specAcceptedBids]
      rw [if_pos hhp]
      rw [specAccepted_none rest pa (fun x hx => le_of_lt (hgt x hx))]
      rfl

/-- C4: for any bid sequence applied in lock-acquisition order while the
auction is not ended, the collected successful bids are exactly those whose
amount is strictly greater than the highest bid visible at their own
arrival; the final highestBid is the maximum among those accepted amounts
(the unchanged initial highest bid when none is accepted); amounts forming a
strictly increasing chain above the current highest bid all succeed when
delivered in increasing order, while delivered in decreasing (reversed)
order only the first succeeds and every other bid is rejected. -/
theorem runOps_bid_sequence (a : Auction) (bids : List (String × Int))
    (hs : a.status ≠ "ended") :
    (runOps a (bidsOf bids)).2 = specAcceptedBids a.highestBid bids ∧
    ((runOps a (bidsOf bids)).2 = [] →
      (runOps a (bidsOf bids)).1.highestBid = a.highestBid) ∧
    ((runOps a (bidsOf bids)).2 ≠ [] →
      (runOps a (bidsOf bids)).1.highestBid ∈ (runOps a (bidsOf bids)).2.map Prod.snd ∧
      ∀ x ∈ (runOps a (bidsOf bids)).2.map Prod.snd,
        x ≤ (runOps a (bidsOf bids)).1.highestBid) ∧
    (List.Chain' (· < ·) (a.highestBid :: bids.map Prod.snd) →
      (runOps a (bidsOf bids)).2 = bids ∧
      (runOps a (bidsOf bids.reverse)).2 = bids.reverse.take 1) := by
  obtain ⟨ht, hf⟩ := runBids_spec bids a hs
  refine ⟨ht, ?_, ?_, ?_⟩
  · intro hempty
    rw [ht] at hempty
    rw [hf]
    exact (specAccepted_max bids a.highestBid).1 hempty
  · intro hne
    rw [ht] at hne
    rw [ht, hf]
    exact (specAccepted_max bids a.highestBid).2 hne
  · intro hc
    constructor
    · rw [ht]
      exact specAccepted_increasing bids a.highestBid hc
    · obtain ⟨ht2, _⟩ := runBids_spec bids.reverse a hs
      rw [ht2]
      exact specAccepted_reverse bids a.highestBid hc

/-- C4 witness: from the initial state the increasing amounts 1 < 2 both
succeed, and the same amounts delivered in decreasing order yield only the
first success. -/
theorem runOps_bid_sequence_witness :
    (runOps initialAuction (bidsOf [("a", 1), ("b", 2)])).2 = [("a", 1), ("b", 2)] ∧
    (runOps initialAuction (bidsOf [("b", 2), ("a", 1)])).2 = [("b", 2)] := by
  have h := (runOps_bid_sequence initialAuction [("a", 1), ("b", 2)] (by decide)).2.2.2
    (by norm_num [initialAuction, List.chain'_cons])
  exact ⟨h.1, h.2⟩

theorem coordinatorQuery_cons_ok (p : ReplicaQueryResult) (rest : List ReplicaQueryResult)
    (d : String) (h : queryFromReplica p = Except.ok d) :
    coordinatorQuery (p :: rest) = some d := by
  simp [coordinatorQuery, h]

theorem coordinatorQuery_cons_err (p : ReplicaQueryResult) (rest : List ReplicaQueryResult)
    (h : isQueryError p = true) :
    coordinatorQuery (p :: rest) = coordinatorQuery rest := by
  unfold isQueryError at h
  cases hq : queryFromReplica p with
  | ok d => rw [hq] at h; simp at h
  | error e => simp [coordinatorQuery, hq]

theorem coordinatorQuery_all_fail (rs : List ReplicaQueryResult)
    (h : ∀ x ∈ rs, isQueryError x = true) :
    coordinatorQuery rs = none := by
  induction rs with
  | nil => rfl
  | cons p rest ih =>
      rw [coordinatorQuery_cons_err p rest (h p (List.mem_cons_self p rest))]
      exact ih (fun x hx => h x (List.mem_cons_of_mem p hx))

theorem coordinatorQuery_first (pre suffix : List ReplicaQueryResult)
    (r : ReplicaQueryResult) (d : String)
    (hp : ∀ x ∈ pre, isQueryError x = true)
    (hr : queryFromReplica r = Except.ok d) :
    coordinatorQuery (pre ++ r :: suffix) = some d := by
  induction pre with
  | nil => simpa using coordinatorQuery_cons_ok r suffix d hr
  | cons p pre' ih =>
      rw [List.cons_append,
        coordinatorQuery_cons_err p _ (hp p (List.mem_cons_self p pre'))]
      exact ih (fun x hx => hp x (List.mem_cons_of_mem p hx))

/-- C7: Coordinator.Query walks the replica list in its configured order
with a two-second per-attempt client timeout; an attempt fails on a
connection error, an unreadable body, or a non-200 status, and succeeds on a
200 status with a readable body; the first successful attempt's body is
returned regardless of what the remaining replicas would answer; and when
every replica fails the result is `none` — total failure, no synthesized
value. -/
theorem coordinatorQuery_first_success (pre suffix rs : List ReplicaQueryResult)
    (r : ReplicaQueryResult) (d : String) :
    queryClientTimeoutSeconds = 2 ∧
    (∀ b, queryFromReplica (ReplicaQueryResult.httpResponse 200 b) = Except.ok b) ∧
    (∀ st b, st ≠ 200 → isQueryError (ReplicaQueryResult.httpResponse st b) = true) ∧
    isQueryError ReplicaQueryResult.connectError = true ∧
    isQueryError ReplicaQueryResult.readError = true ∧
    ((∀ x ∈ pre, isQueryError x = true) → queryFromReplica r = Except.ok d →
      coordinatorQuery (pre ++ r :: suffix) = some d) ∧
    ((∀ x ∈ rs, isQueryError x = true) → coordinatorQuery rs = none) := by
  refine ⟨rfl, ?_, ?_, rfl, rfl, ?_, coordinatorQuery_all_fail rs⟩
  · intro b
    simp [queryFromReplica]
  · intro st b hst
    simp [isQueryError, queryFromReplica, hst]
  · intro hp hr
    exact coordinatorQuery_first pre suffix r d hp hr

/-- C7 witness: with a failing first replica the second replica's 200 body
is returned and the third is irrelevant; with only failing replicas the
query reports total failure. -/
theorem coordinatorQuery_first_success_witness :
    coordinatorQuery [ReplicaQueryResult.connectError,
      ReplicaQueryResult.httpResponse 200 "data",
      ReplicaQueryResult.readError] = some "data" ∧
    coordinatorQuery [ReplicaQueryResult.connectError,
      ReplicaQueryResult.httpResponse 404 "x"] = none := by
  constructor
  · exact (coordinatorQuery_first_success [ReplicaQueryResult.connectError]
      [ReplicaQueryResult.readError] [] (ReplicaQueryResult.httpResponse 200 "data")
      "data").2.2.2.2.2.1 (by decide) rfl
  · exact (coordinatorQuery_first_success [] [] [ReplicaQueryResult.connectError,
      ReplicaQueryResult.httpResponse 404 "x"] ReplicaQueryResult.readError
      "").2.2.2.2.2.2 (by decide)

theorem coordinatorBidLoop_append (l1 l2 : List ReplicaBidResult) :
    coordinatorBidLoop (l1 ++ l2) = coordinatorBidLoop l1 ++ coordinatorBidLoop l2 := by
  induction l1 with
  | nil => rfl
  | cons p rest ih =>
      show bidReplicaStep p ++ coordinatorBidLoop (rest ++ l2) =
        (bidReplicaStep p ++ coordinatorBidLoop rest) ++ coordinatorBidLoop l2
      rw [ih, List.append_assoc]

/-- C8: Coordinator.Bid processes every replica in the configured list:
wherever a replica sits and whatever the earlier replicas produced, the
broadcast log contains exactly that replica's own contribution in place — a
transport or decode failure contributes exactly one logged entry and never
aborts the processing of the remaining replicas — and the loop always falls
through to the unconditional completion entry; the call carries no quorum,
ack count, or aggregate success/failure value back (the embedding returns
only the log). -/
theorem coordinatorBid_fanout (rs1 rs2 : List ReplicaBidResult) (r : ReplicaBidResult) :
    coordinatorBid (rs1 ++ r :: rs2) =
      coordinatorBidLoop rs1 ++ bidReplicaStep r ++ coordinatorBidLoop rs2 ++
        [CoordinatorLogEntry.bidCompleted] ∧
    bidReplicaStep ReplicaBidResult.sendError = [CoordinatorLogEntry.sendErrorLogged] ∧
    bidReplicaStep ReplicaBidResult.decodeError = [CoordinatorLogEntry.decodeErrorLogged] ∧
    (coordinatorBid (rs1 ++ r :: rs2)).getLast? = some CoordinatorLogEntry.bidCompleted := by
  refine ⟨?_, rfl, rfl, ?_⟩
  · unfold coordinatorBid
    rw [coordinatorBidLoop_append]
    show (coordinatorBidLoop rs1 ++ (bidReplicaStep r ++ coordinatorBidLoop rs2)) ++
        [CoordinatorLogEntry.bidCompleted] = _
    simp [List.append_assoc]
  · unfold coordinatorBid
    exact List.getLast?_concat _

theorem handleBid_wrong_method (method : String) (body : Option (List (String × JsonValue)))
    (a : Auction) (h : method ≠ "POST") :
    handleBid method body a = (HttpOutcome.methodNotAllowed, a) := by
  simp [handleBid, h]

theorem handleBid_post_some (fields : List (String × JsonValue)) (a : Auction) :
    handleBid "POST" (some fields) a =
      handleBidFields a (asString (jsonLookup fields "name"))
        (asNumber (jsonLookup fields "amount")) := by
  unfold handleBid
  rw [if_neg (by simp)]

theorem handleBid_bad_fields (fields : List (String × JsonValue)) (a : Auction)
    (h : asString (jsonLookup fields "name") = none ∨
      asNumber (jsonLookup fields "amount") = none) :
    handleBid "POST" (some fields) a = (HttpOutcome.badRequest, a) := by
  rw [handleBid_post_some]
  rcases h with h | h
  · rw [h]
    rfl
  · rw [h]
    cases asString (jsonLookup fields "name") with
    | none => rfl
    | some s => rfl

/-- C9: wire-level validation never touches the auction state: a non-POST
request to /bid is answered 405 with the state unchanged; an undecodable
body is answered 400 with the state unchanged; a body whose `name` field is
not a string or whose `amount` field is not a number is answered 400 with
the state unchanged; and a non-GET request to /query is answered 405 with
the state unchanged. -/
theorem replica_validation (method : String) (body : Option (List (String × JsonValue)))
    (a : Auction) (fields : List (String × JsonValue)) (d e : Int) :
    (method ≠ "POST" →
      handleBid method body a = (HttpOutcome.methodNotAllowed, a) ∧
      httpStatusCode (handleBid method body a).1 = 405) ∧
    (handleBid "POST" none a = (HttpOutcome.badRequest, a) ∧
      httpStatusCode (handleBid "POST" (none : Option (List (String × JsonValue))) a).1 = 400) ∧
    (asString (jsonLookup fields "name") = none ∨
        asNumber (jsonLookup fields "amount") = none →
      handleBid "POST" (some fields) a = (HttpOutcome.badRequest, a) ∧
      httpStatusCode (handleBid "POST" (some fields) a).1 = 400) ∧
    (method ≠ "GET" →
      handleQuery method a d e = (HttpOutcome.methodNotAllowed, a) ∧
      httpStatusCode (handleQuery method a d e).1 = 405) := by
  refine ⟨?_, ?_, ?_, ?_⟩
  · intro h
    have he := handleBid_wrong_method method body a h
    exact ⟨he, by rw [he]; rfl⟩
  · exact ⟨rfl, rfl⟩
  · intro h
    have he := handleBid_bad_fields fields a h
    exact ⟨he, by rw [he]; rfl⟩
  · intro h
    have he : handleQuery method a d e = (HttpOutcome.methodNotAllowed, a) := by
      simp [handleQuery, h]
    exact ⟨he, by rw [he]; rfl⟩

/-- C9 witness: a PUT to /bid, a decode failure, a payload with a missing
name, and a POST to /query, all from the initial state. -/
theorem replica_validation_witness :
    handleBid "PUT" (some [("name", JsonValue.str "a")]) initialAuction =
      (HttpOutcome.methodNotAllowed, initialAuction) ∧
    handleBid "POST" (none : Option (List (String × JsonValue))) initialAuction =
      (HttpOutcome.badRequest, initialAuction) ∧
    handleBid "POST" (some [("amount", JsonValue.num 3)]) initialAuction =
      (HttpOutcome.badRequest, initialAuction) ∧
    handleQuery "POST" initialAuction 100 0 =
      (HttpOutcome.methodNotAllowed, initialAuction) := by
  refine ⟨?_, ?_, ?_, ?_⟩
  · exact ((replica_validation "PUT" (some [("name", JsonValue.str "a")]) initialAuction
      [] 0 0).1 (by decide)).1
  · exact (replica_validation "POST" none initialAuction [] 0 0).2.1.1
  · exact ((replica_validation "POST" (some [("amount", JsonValue.num 3)]) initialAuction
      [("amount", JsonValue.num 3)] 0 0).2.2.1 (Or.inl rfl)).1
  · exact ((replica_validation "POST" none initialAuction [] 100 0).2.2.2 (by decide)).1

/-- C10: for every response a conforming replica can return to a bid — the
200-encoded outcome of `handleBid`, whose `reason` field is either absent or
the descriptive rejection message, never the string "fail" — the
coordinator's per-replica failure-logging branch in `bid` contributes no log
entry, because that branch tests the decoded `reason` field against the
string "fail"; a business rejection is therefore logged exactly like an
acceptance (not at all). -/
theorem coordinator_misses_rejections (method : String)
    (body : Option (List (String × JsonValue))) (a : Auction) (resp : BidWireResponse)
    (h : (handleBid method body a).1 = HttpOutcome.ok resp) :
    bidReplicaStep (ReplicaBidResult.response resp) = [] := by
  by_cases hm : method ≠ "POST"
  · rw [handleBid_wrong_method method body a hm] at h
    simp at h
  · have hmeq : method = "POST" := not_ne_iff.mp hm
    subst hmeq
    cases body with
    | none =>
        rw [show handleBid "POST" (none : Option (List (String × JsonValue))) a =
          (HttpOutcome.badRequest, a) from rfl] at h
        simp at h
    | some fields =>
        rw [handleBid_post_some] at h
        cases hn : asString (jsonLookup fields "name") with
        | none =>
            rw [hn] at h
            simp [handleBidFields] at h
        | some name =>
            cases hq : asNumber (jsonLookup fields "amount") with
            | none =>
                rw [hn, hq] at h
                simp [handleBidFields] at h
            | some q =>
                rw [hn, hq] at h
                simp only [handleBidFields] at h
                simp at h
                cases hout : (placeBid a name (truncToInt q)).1 with
                | success =>
                    rw [hout] at h
                    rw [← h]
                    rfl
                | fail r =>
                    have hr := placeBid_fail_reason a name (truncToInt q) r hout
                    subst hr
                    rw [hout] at h
                    rw [← h]
                    decide
                | auctionEnded =>
                    rw [hout] at h
                    rw [← h]
                    rfl

/-- C10 witness: the concrete rejection response produced by the bid
("a", 0) against the initial state draws no coordinator log entry. -/
theorem coordinator_misses_rejections_witness :
    bidReplicaStep (ReplicaBidResult.response
      { outcome := "fail", reason := some rejectReason }) = [] :=
  coordinator_misses_rejections "POST"
    (some [("name", JsonValue.str "a"), ("amount", JsonValue.num 0)]) initialAuction
    { outcome := "fail", reason := some rejectReason } (by decide)
